import Mathlib

/-!
Verification of `filters/filters.py` (photometric filter modelling).

This file gives a shallow embedding of the two classes `Filter` and
`FilterSet` of `filters/filters.py` and proves properties of the embedded
code.  Conventions of the embedding:

* numpy arrays of floats become `List ℚ`; all arithmetic is exact rational
  arithmetic (the claims under study are order/identity properties that do
  not depend on floating-point rounding);
* astropy quantities become a value list tagged with a length unit
  (`Quantity`); only length units and jansky-tagged flux densities are
  modelled, which is all the claims exercise;
* `scipy.integrate.simps` is embedded following the scipy source
  (`_basic_simps` for the non-uniform composite Simpson rule plus the
  `even='avg'` trapezoidal end-correction branch for an even number of
  samples);
* `scipy.interpolate.interp1d(x, y, bounds_error=False, fill_value=0)` is
  embedded as exact piecewise-linear interpolation over the nodes sorted by
  `x` (interp1d has `assume_sorted=False`), with value 0 outside the node
  range, and with interp1d's shape checks (equal lengths, at least two
  entries) as error results;
* fallible constructors/calls return `Except String _`; a raised Python
  exception is an `.error`;
* `np.argsort` is embedded as an insertion sort of the index range by value
  (numpy's tie order is unspecified; no claim depends on tie order);
* file discovery/parsing for named catalogs (`glob.glob` + `np.loadtxt`,
  declared an external collaborator by the spec) is abstracted into a
  `CatalogEnv` parameter holding the parsed two-column tables.
-/

namespace Filters

/-- Length units of wavelength quantities (`u.angstrom`, `u.nm`, `u.micron`). -/
inductive LUnit where
  | angstrom
  | nanometer
  | micron
  deriving DecidableEq, Repr

/-- Scale factor converting a value tagged with a given length unit into
angstroms. -/
def toAng : LUnit → ℚ
  | .angstrom => 1
  | .nanometer => 10
  | .micron => 10000

/-- A unit-tagged numeric array: an astropy `Quantity` of length. -/
structure Quantity where
  val : List ℚ
  unit : LUnit
  deriving DecidableEq, Repr

/-- A unit-tagged scalar, e.g. the stored `center` (`value * wave.unit`). -/
structure SQuantity where
  val : ℚ
  unit : LUnit
  deriving DecidableEq, Repr

/-- The `wave` argument of the Python API: either a unit-tagged quantity or a
bare numeric array (in which case angstroms are assumed). -/
inductive WaveInput where
  | qty (q : Quantity)
  | raw (xs : List ℚ)

/-- The `flux_density` argument: a jansky-tagged quantity or a bare numeric
array (in which case janskys are assumed).  Flux densities in other units
(whose conversion needs `u.spectral_density(wave)`) are not modelled: no
claim exercises them. -/
inductive FluxInput where
  | jy (xs : List ℚ)
  | raw (xs : List ℚ)

/-- Values of `q.to(u.angstrom, equivalencies=u.spectral())` for a length
quantity. -/
def angVals (q : Quantity) : List ℚ := q.val.map (· * toAng q.unit)

/-- Angstrom values of a `wave`-style input, as produced by the
`new_wave.to(u.angstrom, ...)` / `new_wave * u.angstrom` normalization in
`Filter.interp` (lines 112-115). -/
def inputAngVals : WaveInput → List ℚ
  | .qty q => angVals q
  | .raw xs => xs

/-- The quantity form of the `wave` argument after the try/except of
`Filter.__call__` lines 78-82 (`wave = wave * u.angstrom` for bare input). -/
def asQty : WaveInput → Quantity
  | .qty q => q
  | .raw xs => ⟨xs, .angstrom⟩

/-- Jansky values of the `flux_density` argument (lines 83-86). -/
def fluxVals : FluxInput → List ℚ
  | .jy xs => xs
  | .raw xs => xs

/-- The speed of light in angstrom·hertz: 2.99792458e18. -/
def cAngHz : ℚ := 2997924580000000000

/-- Frequencies `wave.to(u.Hz, equivalencies=u.spectral())`: nu = c / lambda
with lambda taken in angstroms. -/
def freqsOf (q : Quantity) : List ℚ := q.val.map (fun v => cAngHz / (v * toAng q.unit))

/-- The value of the AB flux zeropoint `zp_AB = 3631 * u.Jy` (line 21), in Jy. -/
def zpAB : ℚ := 3631

/-- One term of scipy's `_basic_simps` over a non-uniform grid: with
`h0 = x[i+1]-x[i]`, `h1 = x[i+2]-x[i+1]`, the term is
`(h0+h1)/6 * (y[i]*(2-h1/h0) + y[i+1]*(h0+h1)^2/(h0*h1) + y[i+2]*(2-h0/h1))`. -/
def simpTerm (x y : ℕ → ℚ) (i : ℕ) : ℚ :=
  let h0 := x (i + 1) - x i
  let h1 := x (i + 2) - x (i + 1)
  (h0 + h1) / 6 * (y i * (2 - h1 / h0) + y (i + 1) * ((h0 + h1) ^ 2 / (h0 * h1)) +
    y (i + 2) * (2 - h0 / h1))

/-- scipy `_basic_simps(y, start, start + 2*steps, x)`: the sum of the
Simpson terms at `start, start+2, ...` (`steps` of them). -/
def basicSimpson (x y : ℕ → ℚ) (start steps : ℕ) : ℚ :=
  ∑ k in Finset.range steps, simpTerm x y (start + 2 * k)

/-- `scipy.integrate.simps(y, x)` with the default `even='avg'`: for an odd
number `N` of samples, the composite Simpson sum over the `(N-1)/2` point
triples; for even `N`, the average of the `first`/`last` variants, each a
basic Simpson sum over `(N-2)/2` triples plus a trapezoid on the leftover
end interval.  (`N = 0` raises in scipy and is never used here; out-of-range
indices read the `getD` default.) -/
def simps (y x : List ℚ) : ℚ :=
  let N := y.length
  let xf : ℕ → ℚ := fun i => x.getD i 0
  let yf : ℕ → ℚ := fun i => y.getD i 0
  if N % 2 = 0 then
    ((basicSimpson xf yf 0 ((N - 2) / 2) + basicSimpson xf yf 1 ((N - 2) / 2)) +
      ((xf (N - 1) - xf (N - 2)) / 2 * (yf (N - 1) + yf (N - 2)) +
        (xf 1 - xf 0) / 2 * (yf 1 + yf 0))) / 2
  else
    basicSimpson xf yf 0 ((N - 1) / 2)

/-- `np.argsort(xs)`: a permutation of `List.range xs.length` listing the
indices of `xs` in ascending order of value. -/
def argsort (xs : List ℚ) : List ℕ :=
  List.insertionSort (fun i j => xs.getD i 0 ≤ xs.getD j 0) (List.range xs.length)

/-- numpy fancy indexing `xs[idx]` (with an explicit out-of-range default,
never read when `idx` comes from `argsort`). -/
def select (xs : List α) (d : α) (idx : List ℕ) : List α :=
  idx.map (fun i => xs.getD i d)

/-- Exact piecewise-linear evaluation over nodes sorted by the first
component, with value 0 left of the first node and right of the last node:
the `bounds_error=False, fill_value=0` semantics of the retained interp1d. -/
def pwlin : List (ℚ × ℚ) → ℚ → ℚ
  | [], _ => 0
  | [_], _ => 0
  | (x0, y0) :: (x1, y1) :: rest, q =>
    if q < x0 then 0
    else if q ≤ x1 then y0 + (y1 - y0) * (q - x0) / (x1 - x0)
    else pwlin ((x1, y1) :: rest) q

/-- The interpolation nodes used by `interp1d(self.wave, self.resp, ...)`:
interp1d strips units (so the nodes are the raw stored values of
`self.wave`) and, having `assume_sorted=False`, sorts the nodes by x. -/
def sortNodes (xs ys : List ℚ) : List (ℚ × ℚ) :=
  (argsort xs).map (fun i => (xs.getD i 0, ys.getD i 0))

/-- The state of a constructed `Filter`: stored grids, name, zeropoint value
(Jy), and the derived moments `norm`, `center` and `width` (the latter kept
as its square `width2`; the stored width is `sqrt width2 * wave.unit`). -/
structure Filter where
  wave : Quantity
  resp : List ℚ
  name : String
  zp : ℚ
  norm : ℚ
  center : SQuantity
  width2 : ℚ
  deriving DecidableEq

/-- Field computation of `Filter.__init__` (lines 50-59) for an
already-normalized `wave` quantity:
`norm = simps(resp, wave)`,
`center = simps(resp/norm*wave, wave) * wave.unit`,
`width = sqrt(simps(resp/norm*(wave-center)**2, wave)) * wave.unit`.
`simps` receives the raw values of the quantity `wave`. -/
def Filter.build (wave : Quantity) (resp : List ℚ) (name : String) (zp : ℚ) : Filter :=
  let norm := simps resp wave.val
  let c := simps (List.zipWith (fun r x => r / norm * x) resp wave.val) wave.val
  { wave := wave
    resp := resp
    name := name
    zp := zp
    norm := norm
    center := ⟨c, wave.unit⟩
    width2 := simps (List.zipWith (fun r x => r / norm * (x - c) ^ 2) resp wave.val) wave.val }

/-- `Filter.__init__` (lines 46-59).  NOTE (lines 46-50): the source computes
`self.wave = wave.to(u.angstrom)` inside the `try`, but line 50
unconditionally overwrites `self.wave = wave`, so a unit-tagged `wave` is
stored *unconverted*; only the bare-array branch (`wave = wave * u.angstrom`)
tags angstroms.  Line 52 `assert np.all(resp <= 1)` raises before any object
is produced. -/
def Filter.init (wave : WaveInput) (resp : List ℚ) (name : String) (zp : ℚ) :
    Except String Filter :=
  let q : Quantity :=
    match wave with
    | .qty q0 => q0
    | .raw xs => ⟨xs, .angstrom⟩
  if ∀ r ∈ resp, r ≤ (1 : ℚ) then .ok (Filter.build q resp name zp)
  else .error "AssertionError: np.all(resp <= 1)"

/-- What the spec says `__init__` stores.  Modelled from the spec: "if `wave`
already carries a unit tag, convert to angstrom-equivalent length units;
otherwise interpret the raw numbers as angstroms" — the conversion the
source computes on line 47 and then discards. -/
def waveNormSpec : WaveInput → Quantity
  | .qty q => ⟨angVals q, .angstrom⟩
  | .raw xs => ⟨xs, .angstrom⟩

/-- The total interpolation map underlying `Filter.interp`: each query value
(already converted to angstroms) is evaluated by the piecewise-linear
interpolant over the raw stored nodes. -/
def Filter.interpFn (f : Filter) (qv : List ℚ) : List ℚ :=
  qv.map (pwlin (sortNodes f.wave.val f.resp))

/-- `Filter.interp` (lines 99-116): build
`interp1d(self.wave, self.resp, bounds_error=False, fill_value=0)`, convert
the query to angstroms (`u.spectral` equivalencies; bare arrays are assumed
angstroms), evaluate.  The two error cases are interp1d's shape checks,
raised for mismatched or degenerate node arrays. -/
def Filter.interp (f : Filter) (new_wave : WaveInput) : Except String (List ℚ) :=
  if f.wave.val.length ≠ f.resp.length then
    .error "ValueError: x and y arrays must be equal in length along interpolation axis"
  else if f.wave.val.length < 2 then
    .error "ValueError: x and y arrays must have at least 2 entries"
  else
    .ok (f.interpFn (inputAngVals new_wave))

/-- Computable core of `Filter.__call__` (lines 78-96): normalize `wave` to
frequencies and `flux_density` to Jy, interpolate the response onto the
query grid, re-sort response, frequency and flux density by
`idx = np.argsort(freq)`, and return both
`simps(new_resp * flux_density, freq)` (the flux, in Jy·Hz) and
`simps(self.zp * new_resp, freq)` (the zeropoint integral used by the
magnitude branch). -/
def Filter.callCore (f : Filter) (wave : WaveInput) (flux_density : FluxInput) :
    Except String (ℚ × ℚ) :=
  let q := asQty wave
  let freq := freqsOf q
  let fd := fluxVals flux_density
  match f.interp (.qty q) with
  | .error e => .error e
  | .ok ir =>
    let idx := argsort freq
    let new_resp := select ir 0 idx
    let freqS := select freq 0 idx
    let fdS := select fd 0 idx
    .ok (simps (List.zipWith (· * ·) new_resp fdS) freqS,
      simps (new_resp.map (f.zp * ·)) freqS)

/-- `Filter.__call__`: the integrated flux, or with `mag` the AB magnitude
`-2.5 * log10(flux / simps(self.zp * new_resp, freq))` (lines 93-97). -/
noncomputable def Filter.call (f : Filter) (wave : WaveInput) (flux_density : FluxInput)
    (mag : Bool) : Except String ℝ :=
  match f.callCore wave flux_density with
  | .error e => .error e
  | .ok p =>
    .ok (if mag then -(5 / 2 : ℝ) * Real.logb 10 ((p.1 : ℝ) / (p.2 : ℝ)) else (p.1 : ℝ))

/-- The stored `width` value: `sqrt` of the second central moment integral. -/
noncomputable def Filter.width (f : Filter) : ℝ := Real.sqrt f.width2

/-- ASCII lowercasing of one character (Python `str.lower` on the ASCII
catalog names used here). -/
def lowerChar (c : Char) : Char :=
  if 65 ≤ c.toNat ∧ c.toNat ≤ 90 then Char.ofNat (c.toNat + 32) else c

/-- Python `s.lower()` (ASCII range). -/
def pyLower (s : String) : String := ⟨s.data.map lowerChar⟩

/-- Python `s.strip()`: drop leading and trailing whitespace. -/
def pyStrip (s : String) : String :=
  ⟨((s.data.dropWhile (·.isWhitespace)).reverse.dropWhile (·.isWhitespace)).reverse⟩

/-- `filters.strip().lower()` (lines 130 and 134). -/
def catalogKey (s : String) : String := pyLower (pyStrip s)

/-- One parsed two-column response table: what `np.loadtxt(filename, ...)` of
one catalog file yields (wavelengths in angstroms, response fractions). -/
structure Table where
  wave : List ℚ
  resp : List ℚ

/-- The on-disk catalog data, abstracting the file discovery and parsing the
spec declares an external collaborator (spec section 6): the parsed tables
behind `data/sdss/*.dat` and `data/cfht/megacam/*.dat`. -/
structure CatalogEnv where
  sdss : List Table
  megacam : List Table

/-- The `filters` argument of `FilterSet.__init__`: a catalog-name string or
an explicit list of Filter instances. -/
inductive FiltersArg where
  | catalog (s : String)
  | explicitList (fs : List Filter)

/-- The state of a constructed `FilterSet`. -/
structure FilterSet where
  name : String
  filters : List Filter

instance : Inhabited Filter :=
  ⟨Filter.build ⟨[], .angstrom⟩ [] "" 0⟩

/-- The values of the `FilterSet.center` property (lines 166-168):
`[f.center.value for f in self]`. -/
def centerVals (fs : List Filter) : List ℚ := fs.map (fun f => f.center.val)

/-- Sequential effectful map over a list (the Python list comprehension over
fallible element operations: the first raised exception propagates). -/
def exceptMap (f : α → Except ε β) : List α → Except ε (List β)
  | [] => .ok []
  | a :: as =>
    match f a with
    | .error e => .error e
    | .ok b =>
      match exceptMap f as with
      | .error e => .error e
      | .ok bs => .ok (b :: bs)

/-- Catalog-name dispatch of `FilterSet.__init__` (lines 130-139): the two
recognized catalogs select their display name and their table directory;
anything else raises `ValueError("Can't find " + filters + " filter set!")`. -/
def resolveEnv (s : String) (env : CatalogEnv) : Except String (String × List Table) :=
  if catalogKey s = "sdss" then .ok ("SDSS", env.sdss)
  else if catalogKey s = "cfht" ∨ catalogKey s = "megacam" ∨ catalogKey s = "cfht/megacam" then
    .ok ("CFHT/MegaCam", env.megacam)
  else .error ("Can\x27t find " ++ s ++ " filter set!")

/-- Construction of one catalog filter (lines 142-144):
`Filter(wave * u.angstrom, resp)` with default name and zeropoint. -/
def loadTable (t : Table) : Except String Filter :=
  Filter.init (.qty ⟨t.wave, .angstrom⟩) t.resp "" zpAB

/-- Lines 148-151, shared by both branches: `assert len(filters) > 0` — note
`filters` is the *constructor argument*, so in the catalog branch `argLen` is
the length of the catalog-name string, not of the loaded filter list — then
`idx = np.argsort(self.center.value)` (whose `self[0]` access raises
IndexError on an empty filter list) and the re-ordering
`self.filters = [self.filters[i] for i in idx]`. -/
def sortStep (nm : String) (fs0 : List Filter) (argLen : ℕ) : Except String FilterSet :=
  if 0 < argLen then
    if fs0.isEmpty then .error "IndexError: list index out of range"
    else .ok ⟨nm, select fs0 default (argsort (centerVals fs0))⟩
  else .error "AssertionError: len(filters) > 0"

/-- `FilterSet.__init__` (lines 123-151). -/
def FilterSet.init (filters : FiltersArg) (name : String) (env : CatalogEnv) :
    Except String FilterSet :=
  match filters with
  | .catalog s =>
    match resolveEnv s env with
    | .error e => .error e
    | .ok (cname, tables) =>
      match exceptMap loadTable tables with
      | .error e => .error e
      | .ok fs0 => sortStep cname fs0 s.length
  | .explicitList fs0 => sortStep name fs0 fs0.length

/-- `FilterSet.__getitem__` (out-of-range indexing raises in Python; it is
only ever used in range here). -/
def FilterSet.getItem (fs : FilterSet) (i : ℕ) : Filter := fs.filters.getD i default

/-- The `FilterSet.center` property (lines 166-168): the member centers'
values tagged with the first member's wave unit. -/
def FilterSet.center (fs : FilterSet) : Quantity :=
  ⟨centerVals fs.filters, (fs.getItem 0).wave.unit⟩

/-- `FilterSet.__call__` (lines 163-164): every member filter applied to the
same input, in the stored (sorted) order. -/
noncomputable def FilterSet.call (fs : FilterSet) (wave : WaveInput) (flux : FluxInput)
    (mag : Bool) : Except String (List ℝ) :=
  exceptMap (fun f => f.call wave flux mag) fs.filters

/-! Concrete instances used by witnesses and counterexamples. -/

/-- A filter built from a nanometer-tagged wavelength grid (exposes the
unit-handling of lines 46-50). -/
def fNm : Filter := Filter.build ⟨[1, 2], .nanometer⟩ [0, 1] "" zpAB

/-- The non-uniform-grid filter of the center-moment counterexample. -/
def fWide : Filter := Filter.build ⟨[0, 1, 10], .angstrom⟩ [1, 1, 0] "" zpAB

/-- A uniform-grid filter centered at 2 angstroms. -/
def fA : Filter := Filter.build ⟨[0, 2, 4], .angstrom⟩ [0, 1, 0] "" zpAB

/-- A uniform-grid filter centered at 1 angstrom. -/
def fB : Filter := Filter.build ⟨[0, 1, 2], .angstrom⟩ [0, 1, 0] "" zpAB

/-- A two-member filter set in unsorted center order. -/
def fsPair : FilterSet := ⟨"pair", [fA, fB]⟩

/-- A uniform-grid filter whose response has two support points, used by the
center-moment witness. -/
def fTwoSupp : Filter := Filter.build ⟨[1, 2, 3], .angstrom⟩ [0, 1 / 2, 1 / 2] "" zpAB

/-- A catalog environment with no files behind either catalog. -/
def envEmpty : CatalogEnv := ⟨[], []⟩


/-! Helper lemmas about lists, `argsort` and `select`. -/

theorem getD_map {α β : Type} (f : α → β) (xs : List α) (i : ℕ) (h : i < xs.length)
    (d : β) (d' : α) : (xs.map f).getD i d = f (xs.getD i d') := by
  rw [List.getD_eq_getElem _ _ (by simpa using h), List.getD_eq_getElem _ _ h,
    List.getElem_map]

theorem getD_zipWith (f : ℚ → ℚ → ℚ) (as bs : List ℚ) (i : ℕ)
    (ha : i < as.length) (hb : i < bs.length) :
    (List.zipWith f as bs).getD i 0 = f (as.getD i 0) (bs.getD i 0) := by
  rw [List.getD_eq_getElem _ _ (by simp [List.length_zipWith]; omega),
    List.getD_eq_getElem _ _ ha, List.getD_eq_getElem _ _ hb, List.getElem_zipWith]

theorem map_getD_range {α : Type} (xs : List α) (d : α) :
    (List.range xs.length).map (fun i => xs.getD i d) = xs := by
  induction xs with
  | nil => rfl
  | cons x xs ih =>
    rw [List.length_cons, List.range_succ_eq_map, List.map_cons, List.map_map]
    have hc : ((fun i => (x :: xs).getD i d) ∘ Nat.succ) = fun i => xs.getD i d := by
      funext i; rfl
    rw [hc, ih]
    rfl

theorem map_range_zip {α β : Type} (xs : List α) (ys : List β) (dx : α) (dy : β)
    (h : ys.length = xs.length) :
    (List.range xs.length).map (fun i => (xs.getD i dx, ys.getD i dy)) = xs.zip ys := by
  induction xs generalizing ys with
  | nil => rfl
  | cons x xs ih =>
    cases ys with
    | nil => simp at h
    | cons y ys =>
      rw [List.length_cons, List.range_succ_eq_map, List.map_cons, List.map_map]
      have hc : ((fun i => ((x :: xs).getD i dx, (y :: ys).getD i dy)) ∘ Nat.succ) =
          fun i => (xs.getD i dx, ys.getD i dy) := by
        funext i; rfl
      rw [hc, ih ys (by simpa using h)]
      rfl

theorem argsort_perm (xs : List ℚ) : List.Perm (argsort xs) (List.range xs.length) :=
  List.perm_insertionSort _ _

theorem mem_argsort_lt (xs : List ℚ) {i : ℕ} (h : i ∈ argsort xs) : i < xs.length := by
  have := (argsort_perm xs).mem_iff.mp h
  simpa using this

theorem argsort_pairwise (xs : List ℚ) :
    (argsort xs).Pairwise (fun i j => xs.getD i 0 ≤ xs.getD j 0) := by
  haveI : IsTotal ℕ (fun i j => xs.getD i 0 ≤ xs.getD j 0) := ⟨fun _ _ => le_total _ _⟩
  haveI : IsTrans ℕ (fun i j => xs.getD i 0 ≤ xs.getD j 0) :=
    ⟨fun _ _ _ hab hbc => le_trans hab hbc⟩
  exact List.sorted_insertionSort _ _

theorem length_select {α : Type} (xs : List α) (d : α) (idx : List ℕ) :
    (select xs d idx).length = idx.length := by
  simp [select]

theorem select_perm {α : Type} (xs : List α) (d : α) (idx : List ℕ)
    (h : List.Perm idx (List.range xs.length)) : List.Perm (select xs d idx) xs := by
  have hm : List.Perm (idx.map (fun i => xs.getD i d))
      ((List.range xs.length).map (fun i => xs.getD i d)) := h.map _
  rw [map_getD_range xs d] at hm
  exact hm

theorem select_argsort_perm (xs : List ℚ) : List.Perm (select xs 0 (argsort xs)) xs :=
  select_perm xs 0 (argsort xs) (argsort_perm xs)

theorem select_argsort_sorted (xs : List ℚ) :
    (select xs 0 (argsort xs)).Sorted (· ≤ ·) := by
  have hp := argsort_pairwise xs
  exact List.pairwise_map.mpr hp

theorem argsort_eq_range_of_sorted (xs : List ℚ) (h : xs.Sorted (· < ·)) :
    argsort xs = List.range xs.length := by
  apply List.Sorted.insertionSort_eq
  refine List.pairwise_iff_getElem.mpr ?_
  intro i j hi hj hij
  have hi' : i < xs.length := by simpa using hi
  have hj' : j < xs.length := by simpa using hj
  simp only [List.getElem_range]
  rw [List.getD_eq_getElem _ _ hi', List.getD_eq_getElem _ _ hj']
  exact le_of_lt (List.pairwise_iff_getElem.mp h i j hi' hj' hij)

theorem sortNodes_eq_zip (xs ys : List ℚ) (hs : xs.Sorted (· < ·))
    (h : ys.length = xs.length) : sortNodes xs ys = xs.zip ys := by
  rw [sortNodes, argsort_eq_range_of_sorted xs hs, map_range_zip xs ys 0 0 h]


/-! Lemmas about the piecewise-linear interpolant `pwlin`. -/

theorem pairwise_getD_lt (ps : List (ℚ × ℚ))
    (hsort : ps.Pairwise (fun p r => p.1 < r.1)) (i j : ℕ) (hij : i < j)
    (hj : j < ps.length) : (ps.getD i (0, 0)).1 < (ps.getD j (0, 0)).1 := by
  have hi : i < ps.length := lt_trans hij hj
  rw [List.getD_eq_getElem _ _ hi, List.getD_eq_getElem _ _ hj]
  exact List.pairwise_iff_getElem.mp hsort i j hi hj hij

theorem pwlin_lt_head (x0 y0 : ℚ) (rest : List (ℚ × ℚ)) (q : ℚ) (h : q < x0) :
    pwlin ((x0, y0) :: rest) q = 0 := by
  cases rest with
  | nil => rfl
  | cons p1 rest =>
    obtain ⟨x1, y1⟩ := p1
    simp only [pwlin]
    rw [if_pos h]

theorem pwlin_all_lt (ps : List (ℚ × ℚ)) (q : ℚ) (h : ∀ p ∈ ps, p.1 < q) :
    pwlin ps q = 0 := by
  induction ps with
  | nil => rfl
  | cons p0 ps ih =>
    obtain ⟨x0, y0⟩ := p0
    cases ps with
    | nil => rfl
    | cons p1 rest =>
      obtain ⟨x1, y1⟩ := p1
      have h0 : x0 < q := h (x0, y0) (by simp)
      have h1 : x1 < q := h (x1, y1) (by simp)
      simp only [pwlin]
      rw [if_neg (by linarith), if_neg (by linarith)]
      exact ih (fun p hp => h p (List.mem_cons_of_mem _ hp))

theorem pwlin_segment (ps : List (ℚ × ℚ)) (q : ℚ) (j : ℕ)
    (hsort : ps.Pairwise (fun p r => p.1 < r.1))
    (hj : j + 1 < ps.length)
    (hq0 : (ps.getD j (0, 0)).1 ≤ q) (hq1 : q ≤ (ps.getD (j + 1) (0, 0)).1) :
    pwlin ps q = (ps.getD j (0, 0)).2 +
      ((ps.getD (j + 1) (0, 0)).2 - (ps.getD j (0, 0)).2) * (q - (ps.getD j (0, 0)).1) /
        ((ps.getD (j + 1) (0, 0)).1 - (ps.getD j (0, 0)).1) := by
  induction ps generalizing j with
  | nil => simp at hj
  | cons p0 ps ih =>
    obtain ⟨x0, y0⟩ := p0
    cases ps with
    | nil =>
      simp only [List.length_cons, List.length_nil] at hj
      omega
    | cons p1 rest =>
      obtain ⟨x1, y1⟩ := p1
      have hx01 : x0 < x1 :=
        pairwise_getD_lt _ hsort 0 1 (by omega) (by simp only [List.length_cons]; omega)
      cases j with
      | zero =>
        simp only [List.getD_cons_zero, List.getD_cons_succ] at hq0 hq1 ⊢
        simp only [pwlin]
        rw [if_neg (not_lt.mpr hq0), if_pos hq1]
      | succ k =>
        have hlen : k + 2 < rest.length + 2 := by
          simpa only [List.length_cons] using hj
        have hx0q : x0 < q := by
          have := pairwise_getD_lt _ hsort 0 (k + 1) (by omega) (by
            simp only [List.length_cons]; omega)
          simp only [List.getD_cons_zero] at this
          exact lt_of_lt_of_le this hq0
        by_cases hqx1 : q ≤ x1
        · -- forces k = 0 and q = x1: both segment formulas evaluate to y1
          have hk0 : k = 0 := by
            by_contra hk
            have h1k : (1 : ℕ) < k + 1 := by omega
            have := pairwise_getD_lt _ hsort 1 (k + 1) h1k (by
              simp only [List.length_cons]; omega)
            simp only [List.getD_cons_succ, List.getD_cons_zero] at this
            have : x1 < q := lt_of_lt_of_le this hq0
            linarith
          subst hk0
          simp only [List.getD_cons_succ, List.getD_cons_zero] at hq0 hq1 ⊢
          have hq : q = x1 := le_antisymm hqx1 hq0
          subst hq
          simp only [pwlin]
          rw [if_neg (not_lt.mpr (le_of_lt hx0q)), if_pos le_rfl]
          rw [mul_div_assoc, div_self (sub_ne_zero.mpr (ne_of_gt hx01))]
          ring_nf
        · push_neg at hqx1
          simp only [List.getD_cons_succ] at hq0 hq1 ⊢
          simp only [pwlin]
          rw [if_neg (not_lt.mpr (le_of_lt hx0q)), if_neg (not_le.mpr hqx1)]
          exact ih k (List.pairwise_cons.mp hsort).2 (by
            simp only [List.length_cons]; omega) hq0 hq1


theorem pwlin_node (ps : List (ℚ × ℚ))
    (hsort : ps.Pairwise (fun p r => p.1 < r.1)) (h2 : 2 ≤ ps.length)
    (i : ℕ) (hi : i < ps.length) :
    pwlin ps ((ps.getD i (0, 0)).1) = (ps.getD i (0, 0)).2 := by
  by_cases hlast : i + 1 < ps.length
  · have hle : (ps.getD i (0, 0)).1 ≤ (ps.getD (i + 1) (0, 0)).1 :=
      le_of_lt (pairwise_getD_lt ps hsort i (i + 1) (by omega) hlast)
    rw [pwlin_segment ps _ i hsort hlast le_rfl hle]
    rw [sub_self, mul_zero, zero_div, add_zero]
  · obtain ⟨j, rfl⟩ : ∃ j, i = j + 1 := ⟨i - 1, by omega⟩
    have hlt : (ps.getD j (0, 0)).1 < (ps.getD (j + 1) (0, 0)).1 :=
      pairwise_getD_lt ps hsort j (j + 1) (by omega) hi
    rw [pwlin_segment ps _ j hsort hi (le_of_lt hlt) le_rfl]
    rw [mul_div_assoc, div_self (sub_ne_zero.mpr (ne_of_gt hlt))]
    ring

theorem pwlin_lt_first (ps : List (ℚ × ℚ)) (q : ℚ)
    (h : q < (ps.getD 0 (0, 0)).1) : pwlin ps q = 0 := by
  cases ps with
  | nil => rfl
  | cons p rest =>
    obtain ⟨x0, y0⟩ := p
    exact pwlin_lt_head _ _ _ _ (by simpa using h)

theorem pwlin_gt_last (ps : List (ℚ × ℚ)) (q : ℚ)
    (hsort : ps.Pairwise (fun p r => p.1 < r.1))
    (h : (ps.getD (ps.length - 1) (0, 0)).1 < q) : pwlin ps q = 0 := by
  apply pwlin_all_lt
  intro p hp
  obtain ⟨i, hi, hpe⟩ := List.getElem_of_mem hp
  have hi1 : i ≤ ps.length - 1 := by omega
  rcases eq_or_lt_of_le hi1 with he | hlt
  · rw [← hpe, ← List.getD_eq_getElem _ (0, 0) hi, he]
    exact h
  · have hstep := pairwise_getD_lt ps hsort i (ps.length - 1) hlt (by omega)
    rw [← hpe, ← List.getD_eq_getElem _ (0, 0) hi]
    exact lt_trans hstep h

theorem pairwise_zip_lt (xs ys : List ℚ) (hs : xs.Sorted (· < ·)) :
    (xs.zip ys).Pairwise (fun p r => p.1 < r.1) := by
  refine List.pairwise_iff_getElem.mpr ?_
  intro i j hi hj hij
  have hi' : i < xs.length := by
    simp only [List.length_zip] at hi; omega
  have hj' : j < xs.length := by
    simp only [List.length_zip] at hj; omega
  rw [List.getElem_zip, List.getElem_zip]
  exact List.pairwise_iff_getElem.mp hs i j hi' hj' hij

theorem getD_zip (xs ys : List ℚ) (i : ℕ) (hx : i < xs.length) (hy : i < ys.length) :
    (xs.zip ys).getD i (0, 0) = (xs.getD i 0, ys.getD i 0) := by
  rw [List.getD_eq_getElem _ _ (by simp only [List.length_zip]; omega),
    List.getD_eq_getElem _ _ hx, List.getD_eq_getElem _ _ hy, List.getElem_zip]

/-- When interp1d's shape checks pass, `Filter.interp` returns the
interpolated values. -/
theorem Filter.interp_ok (f : Filter) (w : WaveInput)
    (hlen : f.wave.val.length = f.resp.length) (h2 : 2 ≤ f.wave.val.length) :
    f.interp w = .ok (f.interpFn (inputAngVals w)) := by
  rw [Filter.interp, if_neg (by simp [hlen]), if_neg (by omega)]

/-- C6 (corrected, amended form): for a Filter whose stored wavelength grid
is tagged in angstroms (as produced by the bare-array branch of the
constructor), with matching grid lengths, at least two nodes, and a strictly
increasing grid, `interp` never errors; every query value strictly below the
first node or strictly above the last node yields exactly 0 (arbitrarily far
out of range), and every query lying in a grid interval yields the linear
interpolation of `(wave, resp)` on that interval. -/
theorem C6_interp_fill_zero (f : Filter) (w : WaveInput)
    (_hu : f.wave.unit = LUnit.angstrom)
    (hlen : f.wave.val.length = f.resp.length)
    (h2 : 2 ≤ f.wave.val.length)
    (hsort : f.wave.val.Sorted (· < ·)) :
    f.interp w = .ok (f.interpFn (inputAngVals w)) ∧
    (∀ q ∈ inputAngVals w,
      (q < f.wave.val.getD 0 0 ∨ f.wave.val.getD (f.wave.val.length - 1) 0 < q) →
        pwlin (sortNodes f.wave.val f.resp) q = 0) ∧
    (∀ q ∈ inputAngVals w, ∀ j, j + 1 < f.wave.val.length →
      f.wave.val.getD j 0 ≤ q → q ≤ f.wave.val.getD (j + 1) 0 →
        pwlin (sortNodes f.wave.val f.resp) q =
          f.resp.getD j 0 + (f.resp.getD (j + 1) 0 - f.resp.getD j 0) *
            (q - f.wave.val.getD j 0) /
              (f.wave.val.getD (j + 1) 0 - f.wave.val.getD j 0)) := by
  have hzip : sortNodes f.wave.val f.resp = f.wave.val.zip f.resp :=
    sortNodes_eq_zip _ _ hsort hlen.symm
  have hpw : (f.wave.val.zip f.resp).Pairwise (fun p r => p.1 < r.1) :=
    pairwise_zip_lt _ _ hsort
  have hzlen : (f.wave.val.zip f.resp).length = f.wave.val.length := by
    simp only [List.length_zip]; omega
  refine ⟨Filter.interp_ok f w hlen h2, ?_, ?_⟩
  · intro q _ hout
    rw [hzip]
    rcases hout with hlo | hhi
    · apply pwlin_lt_first
      rw [getD_zip _ _ 0 (by omega) (by omega)]
      exact hlo
    · apply pwlin_gt_last _ _ hpw
      rw [hzlen, getD_zip _ _ _ (by omega) (by omega)]
      exact hhi
  · intro q _ j hj hq0 hq1
    rw [hzip]
    have hj' : j + 1 < (f.wave.val.zip f.resp).length := by omega
    rw [pwlin_segment _ q j hpw hj'
      (by rw [getD_zip _ _ j (by omega) (by omega)]; exact hq0)
      (by rw [getD_zip _ _ (j + 1) (by omega) (by omega)]; exact hq1)]
    rw [getD_zip _ _ j (by omega) (by omega), getD_zip _ _ (j + 1) (by omega) (by omega)]

theorem C6_counterexample :
    fNm.interp (.raw [3 / 2]) = .ok [1 / 2] ∧
    angVals fNm.wave = [10, 20] ∧
    (3 / 2 : ℚ) < 10 ∧ ((1 / 2 : ℚ) ≠ 0) := by
  refine ⟨?_, ?_, by norm_num, by norm_num⟩
  · norm_num [Filter.interp, fNm, Filter.build, Filter.interpFn, inputAngVals, sortNodes,
      argsort, List.insertionSort, List.orderedInsert, List.range_succ, pwlin]
  · norm_num [angVals, fNm, Filter.build, toAng]

theorem C6_witness :
    (fA.wave.unit = LUnit.angstrom ∧ fA.wave.val.length = fA.resp.length ∧
      2 ≤ fA.wave.val.length ∧ fA.wave.val.Sorted (· < ·)) ∧
    fA.interp (.raw [5, 1]) = .ok (fA.interpFn (inputAngVals (.raw [5, 1]))) ∧
    pwlin (sortNodes fA.wave.val fA.resp) 5 = 0 := by
  have h1 : fA.wave.unit = LUnit.angstrom := by norm_num [fA, Filter.build]
  have h2 : fA.wave.val.length = fA.resp.length := by norm_num [fA, Filter.build]
  have h3 : 2 ≤ fA.wave.val.length := by norm_num [fA, Filter.build]
  have h4 : fA.wave.val.Sorted (· < ·) := by
    norm_num [fA, Filter.build, List.sorted_cons]
  obtain ⟨ha, hb, _⟩ := C6_interp_fill_zero fA (.raw [5, 1]) h1 h2 h3 h4
  refine ⟨⟨h1, h2, h3, h4⟩, ha, ?_⟩
  refine hb 5 (by simp [inputAngVals]) (Or.inr ?_)
  norm_num [fA, Filter.build]

/-- C10 (corrected, amended form): for a Filter whose stored wavelength grid
is tagged in angstroms, with matching lengths and a strictly increasing grid
of at least two nodes, querying the interpolant at the filter's own grid
reproduces the stored response exactly. -/
theorem C10_interp_identity (f : Filter)
    (hu : f.wave.unit = LUnit.angstrom)
    (hlen : f.wave.val.length = f.resp.length)
    (h2 : 2 ≤ f.wave.val.length)
    (hsort : f.wave.val.Sorted (· < ·)) :
    f.interp (.qty f.wave) = .ok f.resp := by
  rw [Filter.interp_ok f _ hlen h2]
  have hq : inputAngVals (.qty f.wave) = f.wave.val := by
    simp [inputAngVals, angVals, hu, toAng]
  rw [hq]
  have hzip : sortNodes f.wave.val f.resp = f.wave.val.zip f.resp :=
    sortNodes_eq_zip _ _ hsort hlen.symm
  congr 1
  apply List.ext_getElem
  · simp only [Filter.interpFn, List.length_map]; omega
  · intro i hi hi'
    have hiw : i < f.wave.val.length := by
      simpa only [Filter.interpFn, List.length_map] using hi
    have hir : i < f.resp.length := by omega
    simp only [Filter.interpFn, List.getElem_map]
    rw [← List.getD_eq_getElem f.wave.val 0 hiw, ← List.getD_eq_getElem f.resp 0 hir, hzip]
    have hnode := pwlin_node (f.wave.val.zip f.resp) (pairwise_zip_lt _ _ hsort)
      (by simp only [List.length_zip]; omega) i (by simp only [List.length_zip]; omega)
    rw [getD_zip _ _ i hiw hir] at hnode
    exact hnode

theorem C10_counterexample :
    fNm.interp (.qty fNm.wave) = .ok [0, 0] ∧ fNm.resp = [0, 1] ∧
    ([0, 0] : List ℚ) ≠ [0, 1] := by
  refine ⟨?_, by norm_num [fNm, Filter.build], by norm_num⟩
  norm_num [Filter.interp, fNm, Filter.build, Filter.interpFn, inputAngVals, angVals,
    toAng, sortNodes, argsort, List.insertionSort, List.orderedInsert, List.range_succ,
    pwlin]

theorem C10_witness :
    (fA.wave.unit = LUnit.angstrom ∧ fA.wave.val.length = fA.resp.length ∧
      2 ≤ fA.wave.val.length ∧ fA.wave.val.Sorted (· < ·)) ∧
    fA.interp (.qty fA.wave) = .ok fA.resp := by
  have h1 : fA.wave.unit = LUnit.angstrom := by norm_num [fA, Filter.build]
  have h2 : fA.wave.val.length = fA.resp.length := by norm_num [fA, Filter.build]
  have h3 : 2 ≤ fA.wave.val.length := by norm_num [fA, Filter.build]
  have h4 : fA.wave.val.Sorted (· < ·) := by
    norm_num [fA, Filter.build, List.sorted_cons]
  exact ⟨⟨h1, h2, h3, h4⟩, C10_interp_identity fA h1 h2 h3 h4⟩


/-- C2 (code bug, evaluated at the failing input): a nanometer-tagged wave
is stored unconverted — `Filter.__init__` line 47 computes
`wave.to(u.angstrom)` but line 50 overwrites `self.wave` with the original
`wave` — while the spec-prescribed normalization (`waveNormSpec`) would
store the angstrom-converted grid; the bare-array branch does tag angstroms
as claimed. -/
theorem C2_wave_stored_unconverted :
    Filter.init (.qty ⟨[1, 2, 3], .nanometer⟩) [0, 1, 0] "" zpAB =
      .ok (Filter.build ⟨[1, 2, 3], .nanometer⟩ [0, 1, 0] "" zpAB) ∧
    (Filter.build ⟨[1, 2, 3], .nanometer⟩ [0, 1, 0] "" zpAB).wave =
      ⟨[1, 2, 3], .nanometer⟩ ∧
    waveNormSpec (.qty ⟨[1, 2, 3], .nanometer⟩) = ⟨[10, 20, 30], .angstrom⟩ ∧
    (Filter.build ⟨[1, 2, 3], .nanometer⟩ [0, 1, 0] "" zpAB).wave ≠
      waveNormSpec (.qty ⟨[1, 2, 3], .nanometer⟩) ∧
    Filter.init (.raw [1, 2, 3]) [0, 1, 0] "" zpAB =
      .ok (Filter.build ⟨[1, 2, 3], .angstrom⟩ [0, 1, 0] "" zpAB) ∧
    (Filter.build ⟨[1, 2, 3], .angstrom⟩ [0, 1, 0] "" zpAB).wave =
      ⟨[1, 2, 3], .angstrom⟩ := by
  refine ⟨?_, rfl, ?_, ?_, ?_, rfl⟩
  · simp only [Filter.init.eq_def]
    rw [if_pos (by norm_num)]
  · norm_num [waveNormSpec, angVals, toAng, Quantity.mk.injEq]
  · norm_num [waveNormSpec, angVals, toAng, Filter.build, Quantity.mk.injEq]
  · simp only [Filter.init.eq_def]
    rw [if_pos (by norm_num)]

/-- C4: any `resp` entry exceeding 1 makes `Filter.__init__` fail with the
validation assertion; no Filter value is produced (nothing is clamped). -/
theorem C4_resp_validation (wave : WaveInput) (resp : List ℚ) (name : String) (zp : ℚ)
    (h : ∃ r ∈ resp, (1 : ℚ) < r) :
    Filter.init wave resp name zp = .error "AssertionError: np.all(resp <= 1)" := by
  obtain ⟨r, hr, hr1⟩ := h
  have hna : ¬ ∀ s ∈ resp, s ≤ (1 : ℚ) := fun hall =>
    absurd (hall r hr) (not_le.mpr hr1)
  simp only [Filter.init.eq_def]
  rw [if_neg hna]

theorem C4_witness :
    (∃ r ∈ ([2] : List ℚ), (1 : ℚ) < r) ∧
    Filter.init (.raw [1]) [2] "" zpAB = .error "AssertionError: np.all(resp <= 1)" := by
  have h : ∃ r ∈ ([2] : List ℚ), (1 : ℚ) < r := ⟨2, by norm_num, by norm_num⟩
  exact ⟨h, C4_resp_validation _ _ _ _ h⟩

/-- C1: in `Filter.__call__`, `idx = np.argsort(freq)` is a permutation of
the index range of the frequency grid obtained from `wave`; applying it
re-sorts the grid into ascending frequency order; and the returned flux
(with `mag=False`) is exactly `simps(new_resp * flux_density, freq)` — the
Simpson integral of the re-sorted interpolated response times the re-sorted
flux density over that ascending frequency grid. -/
theorem C1_sorted_freq_integration (f : Filter) (w : WaveInput) (fd : FluxInput)
    (hlen : f.wave.val.length = f.resp.length) (h2 : 2 ≤ f.wave.val.length) :
    List.Perm (argsort (freqsOf (asQty w))) (List.range (freqsOf (asQty w)).length) ∧
    (select (freqsOf (asQty w)) 0 (argsort (freqsOf (asQty w)))).Sorted (· ≤ ·) ∧
    f.call w fd false = .ok
      ((simps
        (List.zipWith (· * ·)
          (select (f.interpFn (angVals (asQty w))) 0 (argsort (freqsOf (asQty w))))
          (select (fluxVals fd) 0 (argsort (freqsOf (asQty w)))))
        (select (freqsOf (asQty w)) 0 (argsort (freqsOf (asQty w)))) : ℚ)) := by
  refine ⟨argsort_perm _, select_argsort_sorted _, ?_⟩
  have hint : f.interp (.qty (asQty w)) = .ok (f.interpFn (angVals (asQty w))) :=
    Filter.interp_ok f _ hlen h2
  simp only [Filter.call, Filter.callCore, hint]
  norm_num


theorem C1_witness :
    (fA.wave.val.length = fA.resp.length ∧ 2 ≤ fA.wave.val.length) ∧
    (List.Perm (argsort (freqsOf (asQty (.raw [1, 2]))))
      (List.range (freqsOf (asQty (.raw [1, 2]))).length) ∧
    (select (freqsOf (asQty (.raw [1, 2]))) 0
      (argsort (freqsOf (asQty (.raw [1, 2]))))).Sorted (· ≤ ·) ∧
    fA.call (.raw [1, 2]) (.raw [3, 4]) false = .ok
      ((simps
        (List.zipWith (· * ·)
          (select (fA.interpFn (angVals (asQty (.raw [1, 2])))) 0
            (argsort (freqsOf (asQty (.raw [1, 2])))))
          (select (fluxVals (.raw [3, 4])) 0 (argsort (freqsOf (asQty (.raw [1, 2]))))))
        (select (freqsOf (asQty (.raw [1, 2]))) 0
          (argsort (freqsOf (asQty (.raw [1, 2]))))) : ℚ))) := by
  have h1 : fA.wave.val.length = fA.resp.length := by norm_num [fA, Filter.build]
  have h2 : 2 ≤ fA.wave.val.length := by norm_num [fA, Filter.build]
  exact ⟨⟨h1, h2⟩, C1_sorted_freq_integration fA (.raw [1, 2]) (.raw [3, 4]) h1 h2⟩

/-! Helper lemmas for `FilterSet`. -/

theorem length_argsort (xs : List ℚ) : (argsort xs).length = xs.length := by
  simpa using (argsort_perm xs).length_eq

theorem exceptMap_ok {α β ε : Type} (f : α → Except ε β) (xs : List α) (v : List β)
    (d : α) (db : β) (h : exceptMap f xs = .ok v) :
    v.length = xs.length ∧ ∀ i, i < xs.length → f (xs.getD i d) = .ok (v.getD i db) := by
  induction xs generalizing v with
  | nil =>
    simp only [exceptMap, Except.ok.injEq] at h
    subst h
    exact ⟨rfl, fun i hi => absurd hi (by simp)⟩
  | cons a as ih =>
    simp only [exceptMap] at h
    cases hfa : f a with
    | error e => rw [hfa] at h; simp at h
    | ok b =>
      rw [hfa] at h
      cases hrec : exceptMap f as with
      | error e => rw [hrec] at h; simp at h
      | ok bs =>
        rw [hrec] at h
        simp only [Except.ok.injEq] at h
        subst h
        obtain ⟨hl, hp⟩ := ih bs hrec
        refine ⟨by simp [hl], ?_⟩
        intro i hi
        cases i with
        | zero => simpa using hfa
        | succ n =>
          simp only [List.getD_cons_succ]
          exact hp n (by simpa using hi)

theorem exceptMap_forall_ok {α β ε : Type} (f : α → Except ε β) (xs : List α)
    (h : ∀ a ∈ xs, ∃ b, f a = .ok b) : ∃ v, exceptMap f xs = .ok v := by
  induction xs with
  | nil => exact ⟨[], rfl⟩
  | cons a as ih =>
    obtain ⟨b, hb⟩ := h a (by simp)
    obtain ⟨bs, hbs⟩ := ih (fun x hx => h x (List.mem_cons_of_mem _ hx))
    refine ⟨b :: bs, ?_⟩
    simp only [exceptMap]
    rw [hb, hbs]

/-- A successful `sortStep` forces a positive length argument, a non-empty
filter list, and yields exactly the center-sorted reordering. -/
theorem sortStep_ok (nm : String) (fs0 : List Filter) (k : ℕ) (fs : FilterSet)
    (h : sortStep nm fs0 k = .ok fs) :
    fs = ⟨nm, select fs0 default (argsort (centerVals fs0))⟩ ∧ fs0 ≠ [] ∧ 0 < k := by
  rw [sortStep] at h
  by_cases hk : 0 < k
  · rw [if_pos hk] at h
    by_cases he : fs0.isEmpty
    · rw [if_pos he] at h
      exact absurd h (by simp)
    · rw [if_neg he] at h
      injection h with h2
      refine ⟨h2.symm, ?_, hk⟩
      intro hnil
      rw [hnil] at he
      exact he rfl
  · rw [if_neg hk] at h
    exact absurd h (by simp)

/-- When interp1d's shape checks pass, `Filter.__call__` always returns a
value (both the flux and the magnitude branches return normally). -/
theorem Filter.call_ok (f : Filter) (w : WaveInput) (fd : FluxInput) (mag : Bool)
    (hlen : f.wave.val.length = f.resp.length) (h2 : 2 ≤ f.wave.val.length) :
    ∃ x, f.call w fd mag = .ok x := by
  have hint : f.interp (.qty (asQty w)) = .ok (f.interpFn (angVals (asQty w))) :=
    Filter.interp_ok f _ hlen h2
  simp only [Filter.call, Filter.callCore, hint]
  exact ⟨_, rfl⟩

/-- C8: an unrecognized catalog-name string makes `FilterSet.__init__` raise
a lookup error whose message embeds the requested name; it never returns a
FilterSet. -/
theorem C8_unknown_catalog (s : String) (name : String) (env : CatalogEnv)
    (h : ¬ (catalogKey s = "sdss" ∨ catalogKey s = "cfht" ∨ catalogKey s = "megacam" ∨
      catalogKey s = "cfht/megacam")) :
    FilterSet.init (.catalog s) name env =
      .error ("Can\x27t find " ++ s ++ " filter set!") ∧
    ∃ pre post, ("Can\x27t find " ++ s ++ " filter set!") = pre ++ s ++ post := by
  push_neg at h
  obtain ⟨h1, h2, h3, h4⟩ := h
  have hres : resolveEnv s env = .error ("Can\x27t find " ++ s ++ " filter set!") := by
    rw [resolveEnv, if_neg h1, if_neg (by push_neg; exact ⟨h2, h3, h4⟩)]
  refine ⟨?_, ⟨"Can\x27t find ", " filter set!", rfl⟩⟩
  simp only [FilterSet.init, hres]

theorem C8_witness :
    (¬ (catalogKey "zzz" = "sdss" ∨ catalogKey "zzz" = "cfht" ∨
      catalogKey "zzz" = "megacam" ∨ catalogKey "zzz" = "cfht/megacam")) ∧
    FilterSet.init (.catalog "zzz") "" envEmpty =
      .error ("Can\x27t find " ++ "zzz" ++ " filter set!") ∧
    ∃ pre post, ("Can\x27t find " ++ "zzz" ++ " filter set!") = pre ++ "zzz" ++ post := by
  have h : ¬ (catalogKey "zzz" = "sdss" ∨ catalogKey "zzz" = "cfht" ∨
      catalogKey "zzz" = "megacam" ∨ catalogKey "zzz" = "cfht/megacam") := by decide
  exact ⟨h, C8_unknown_catalog "zzz" "" envEmpty h⟩

theorem dropWhile_length_le {α : Type} (p : α → Bool) (l : List α) :
    (l.dropWhile p).length ≤ l.length := by
  induction l with
  | nil => simp
  | cons a l ih =>
    rw [List.dropWhile_cons]
    split_ifs
    · exact le_trans ih (by simp)
    · simp

theorem catalogKey_length_le (s : String) : (catalogKey s).length ≤ s.length := by
  have t1 := dropWhile_length_le (fun c : Char => c.isWhitespace) s.data
  have t2 := dropWhile_length_le (fun c : Char => c.isWhitespace)
    ((s.data.dropWhile (fun c : Char => c.isWhitespace)).reverse)
  simp only [catalogKey, pyLower, pyStrip, String.length, List.length_map,
    List.length_reverse]
  simp only [List.length_reverse] at t2
  omega

theorem resolveEnv_ok_pos (s : String) (env : CatalogEnv) (ct : String × List Table)
    (h : resolveEnv s env = .ok ct) : 0 < s.length := by
  have hk : 0 < (catalogKey s).length := by
    rw [resolveEnv] at h
    by_cases h1 : catalogKey s = "sdss"
    · rw [h1]; decide
    · rw [if_neg h1] at h
      by_cases h2 : catalogKey s = "cfht" ∨ catalogKey s = "megacam" ∨
          catalogKey s = "cfht/megacam"
      · rcases h2 with h2 | h2 | h2 <;> rw [h2] <;> decide
      · rw [if_neg h2] at h
        exact absurd h (by simp)
  exact lt_of_lt_of_le hk (catalogKey_length_le s)

/-- C3: a FilterSet never exists with zero filters: an explicit empty list
fails the length assertion; a recognized catalog resolving to zero tables
fails with the IndexError raised by the `self[0]` access inside the center
property; and any successful construction has a non-empty member list. -/
theorem C3_never_empty :
    (∀ name env, FilterSet.init (.explicitList []) name env =
      .error "AssertionError: len(filters) > 0") ∧
    (∀ s name env cn, resolveEnv s env = .ok (cn, []) →
      FilterSet.init (.catalog s) name env =
        .error "IndexError: list index out of range") ∧
    (∀ arg name env fs, FilterSet.init arg name env = .ok fs → fs.filters ≠ []) := by
  refine ⟨?_, ?_, ?_⟩
  · intro name env
    simp [FilterSet.init, sortStep]
  · intro s name env cn hres
    have hpos : 0 < s.length := resolveEnv_ok_pos s env (cn, []) hres
    simp only [FilterSet.init, hres]
    have hmap : exceptMap loadTable ([] : List Table) = .ok [] := rfl
    simp only [hmap, sortStep, if_pos hpos]
    rfl
  · intro arg name env fs h
    have hne : ∀ nm fs0 k, sortStep nm fs0 k = .ok fs → fs.filters ≠ [] := by
      intro nm fs0 k hs
      obtain ⟨hfs, hnil, -⟩ := sortStep_ok nm fs0 k fs hs
      have hlp : 0 < fs0.length := List.length_pos.mpr hnil
      have hsl : (select fs0 default (argsort (centerVals fs0))).length = fs0.length := by
        rw [length_select, length_argsort]
        simp [centerVals]
      have hf2 : fs.filters = select fs0 default (argsort (centerVals fs0)) := by
        rw [hfs]
      rw [hf2]
      apply List.length_pos.mp
      rw [hsl]
      exact hlp
    cases arg with
    | explicitList fs0 =>
      exact hne name fs0 fs0.length h
    | catalog s =>
      cases hres : resolveEnv s env with
      | error e =>
        simp only [FilterSet.init, hres] at h
        exact absurd h (by simp)
      | ok ct =>
        obtain ⟨cn, tables⟩ := ct
        simp only [FilterSet.init, hres] at h
        cases hmap : exceptMap loadTable tables with
        | error e =>
          simp only [hmap] at h
          exact absurd h (by simp)
        | ok fs0 =>
          simp only [hmap] at h
          exact hne cn fs0 s.length h

theorem C3_witness :
    FilterSet.init (.explicitList []) "x" envEmpty =
      .error "AssertionError: len(filters) > 0" ∧
    (resolveEnv "sdss" envEmpty = .ok ("SDSS", []) ∧
      FilterSet.init (.catalog "sdss") "" envEmpty =
        .error "IndexError: list index out of range") ∧
    (FilterSet.init (.explicitList [fA]) "y" envEmpty = .ok ⟨"y", [fA]⟩ ∧
      (⟨"y", [fA]⟩ : FilterSet).filters ≠ []) := by
  have hres : resolveEnv "sdss" envEmpty = .ok ("SDSS", []) := by
    rw [resolveEnv, if_pos (by decide)]
    rfl
  have hok : FilterSet.init (.explicitList [fA]) "y" envEmpty = .ok ⟨"y", [fA]⟩ := by
    simp only [FilterSet.init, sortStep, if_pos (by norm_num : (0 : ℕ) < 1)]
    rfl
  refine ⟨C3_never_empty.1 "x" envEmpty, ⟨hres, C3_never_empty.2.1 "sdss" "" envEmpty "SDSS" hres⟩,
    hok, C3_never_empty.2.2 (.explicitList [fA]) "y" envEmpty ⟨"y", [fA]⟩ hok⟩


/-- C5: constructing a FilterSet from an explicit filter list (all members
sharing one wavelength unit) reorders the members by ascending center: the
resulting center-value vector is non-decreasing, the stored member list is a
permutation of the input whose center values are a permutation of the input
centers, and indexing exposes exactly the stored sorted list. -/
theorem C5_sorted_centers (fs0 : List Filter) (name : String) (env : CatalogEnv)
    (u : LUnit) (_hu : ∀ g ∈ fs0, g.wave.unit = u) (fs : FilterSet)
    (h : FilterSet.init (.explicitList fs0) name env = .ok fs) :
    (centerVals fs.filters).Sorted (· ≤ ·) ∧
    List.Perm fs.filters fs0 ∧
    List.Perm (centerVals fs.filters) (centerVals fs0) ∧
    ∀ i, i < fs.filters.length → fs.getItem i = fs.filters.getD i default := by
  have hs : sortStep name fs0 fs0.length = .ok fs := h
  obtain ⟨hfs, hnil, -⟩ := sortStep_ok _ _ _ _ hs
  have hf2 : fs.filters = select fs0 default (argsort (centerVals fs0)) := by rw [hfs]
  have hpair2 : (argsort (centerVals fs0)).Pairwise
      (fun i j => (fs0.getD i default).center.val ≤ (fs0.getD j default).center.val) := by
    refine (argsort_pairwise (centerVals fs0)).imp_of_mem ?_
    intro a b ha hb hab
    have ha' : a < fs0.length := by
      have := mem_argsort_lt _ ha
      simpa [centerVals] using this
    have hb' : b < fs0.length := by
      have := mem_argsort_lt _ hb
      simpa [centerVals] using this
    simp only [centerVals] at hab
    rwa [getD_map _ fs0 a ha' 0 default, getD_map _ fs0 b hb' 0 default] at hab
  refine ⟨?_, ?_, ?_, fun i _ => rfl⟩
  · rw [hf2]
    have : centerVals (select fs0 default (argsort (centerVals fs0))) =
        (argsort (centerVals fs0)).map (fun i => (fs0.getD i default).center.val) := by
      simp [centerVals, select, List.map_map, Function.comp_def]
    rw [this]
    exact List.pairwise_map.mpr hpair2
  · rw [hf2]
    apply select_perm
    have := argsort_perm (centerVals fs0)
    simpa [centerVals] using this
  · rw [hf2]
    have hperm : List.Perm (select fs0 default (argsort (centerVals fs0))) fs0 := by
      apply select_perm
      have := argsort_perm (centerVals fs0)
      simpa [centerVals] using this
    exact hperm.map _

theorem C5_witness :
    ((∀ g ∈ [fA, fB], g.wave.unit = LUnit.angstrom) ∧
      FilterSet.init (.explicitList [fA, fB]) "pair" envEmpty = .ok ⟨"pair", [fB, fA]⟩) ∧
    (centerVals (⟨"pair", [fB, fA]⟩ : FilterSet).filters).Sorted (· ≤ ·) ∧
    List.Perm (⟨"pair", [fB, fA]⟩ : FilterSet).filters [fA, fB] ∧
    List.Perm (centerVals (⟨"pair", [fB, fA]⟩ : FilterSet).filters) (centerVals [fA, fB]) ∧
    ∀ i, i < (⟨"pair", [fB, fA]⟩ : FilterSet).filters.length →
      (⟨"pair", [fB, fA]⟩ : FilterSet).getItem i =
        (⟨"pair", [fB, fA]⟩ : FilterSet).filters.getD i default := by
  have hu : ∀ g ∈ [fA, fB], g.wave.unit = LUnit.angstrom := by
    intro g hg
    simp only [List.mem_cons, List.not_mem_nil, or_false] at hg
    rcases hg with rfl | rfl <;> rfl
  have hcv : centerVals [fA, fB] = [2, 1] := by
    norm_num [centerVals, fA, fB, Filter.build, simps, basicSimpson, simpTerm,
      Finset.sum_range_succ]
  have hinit : FilterSet.init (.explicitList [fA, fB]) "pair" envEmpty =
      .ok ⟨"pair", [fB, fA]⟩ := by
    show sortStep "pair" [fA, fB] ([fA, fB].length) = _
    rw [sortStep, if_pos (by norm_num), if_neg (by decide)]
    rw [hcv]
    have hsort : argsort [2, 1] = [1, 0] := by
      norm_num [argsort, List.insertionSort, List.orderedInsert, List.range_succ]
    rw [hsort]
    rfl
  obtain ⟨c1, c2, c3, c4⟩ :=
    C5_sorted_centers [fA, fB] "pair" envEmpty LUnit.angstrom hu _ hinit
  exact ⟨⟨hu, hinit⟩, c1, c2, c3, c4⟩

/-- C7: `FilterSet.__call__` applies every member filter to the same input in
stored (center-sorted) order: a successful call returns one value per member
filter, and the i-th returned value is exactly `fs[i]` applied to that
input. -/
theorem C7_vectorized_call (fs : FilterSet) (w : WaveInput) (fd : FluxInput) (mag : Bool)
    (v : List ℝ) (h : fs.call w fd mag = .ok v) :
    v.length = fs.filters.length ∧
    ∀ i, i < fs.filters.length → (fs.getItem i).call w fd mag = .ok (v.getD i 0) := by
  have h2 : exceptMap (fun g => g.call w fd mag) fs.filters = .ok v := h
  obtain ⟨hl, hp⟩ := exceptMap_ok (fun g => g.call w fd mag) fs.filters v default 0 h2
  exact ⟨hl, hp⟩

theorem C7_witness :
    fsPair.call (.raw [1, 2]) (.raw [3, 4]) false =
      .ok [((4122146297500000000 : ℚ) : ℝ), ((2248443435000000000 : ℚ) : ℝ)] ∧
    ([((4122146297500000000 : ℚ) : ℝ), ((2248443435000000000 : ℚ) : ℝ)] : List ℝ).length =
      fsPair.filters.length ∧
    ∀ i, i < fsPair.filters.length →
      (fsPair.getItem i).call (.raw [1, 2]) (.raw [3, 4]) false =
        .ok (([((4122146297500000000 : ℚ) : ℝ), ((2248443435000000000 : ℚ) : ℝ)] :
          List ℝ).getD i 0) := by
  have hcall : fsPair.call (.raw [1, 2]) (.raw [3, 4]) false =
      .ok [((4122146297500000000 : ℚ) : ℝ), ((2248443435000000000 : ℚ) : ℝ)] := by
    norm_num [FilterSet.call, fsPair, exceptMap, Filter.call, Filter.callCore,
      Filter.interp, Filter.interpFn, inputAngVals, angVals, asQty, fluxVals, freqsOf,
      toAng, cAngHz, fA, fB, Filter.build, sortNodes, argsort, List.insertionSort,
      List.orderedInsert, List.range_succ, pwlin, select, simps, basicSimpson, simpTerm,
      Finset.sum_range_succ, zpAB]
  obtain ⟨h1, h2⟩ := C7_vectorized_call fsPair (.raw [1, 2]) (.raw [3, 4]) false _ hcall
  exact ⟨hcall, h1, h2⟩


/-! Simpson-rule lemmas for uniform odd grids, used by the center-moment
claim. -/

theorem simpTerm_uniform (x y : ℕ → ℚ) (i : ℕ) (h : ℚ) (hne : h ≠ 0)
    (hd0 : x (i + 1) - x i = h) (hd1 : x (i + 2) - x (i + 1) = h) :
    simpTerm x y i = h / 3 * (y i + 4 * y (i + 1) + y (i + 2)) := by
  simp only [simpTerm]
  rw [hd0, hd1]
  field_simp
  ring

theorem simps_uniform_odd (ys xs : List ℚ) (n m : ℕ) (hyn : ys.length = n)
    (_hxn : xs.length = n) (hm : n = 2 * m + 1) (h : ℚ) (hne : h ≠ 0)
    (huni : ∀ i, i + 1 < n → xs.getD (i + 1) 0 - xs.getD i 0 = h) :
    simps ys xs = ∑ k in Finset.range m,
      h / 3 * (ys.getD (2 * k) 0 + 4 * ys.getD (2 * k + 1) 0 + ys.getD (2 * k + 2) 0) := by
  simp only [simps]
  rw [if_neg (by omega)]
  have hsteps : (ys.length - 1) / 2 = m := by omega
  rw [hsteps, basicSimpson]
  apply Finset.sum_congr rfl
  intro k hk
  have hk' : k < m := Finset.mem_range.mp hk
  rw [simpTerm_uniform _ _ (0 + 2 * k) h hne
    (huni (0 + 2 * k) (by omega)) (huni (0 + 2 * k + 1) (by omega))]
  simp only [Nat.zero_add]

/-- A composite-Simpson sum of non-negative per-index weights over a uniform
grid is positive as soon as one weight is positive: every index below
`2*m+1` lies in some Simpson triple. -/
theorem triple_sum_pos (n m : ℕ) (hm : n = 2 * m + 1) (hm1 : 1 ≤ m) (h : ℚ)
    (hpos : 0 < h) (g : ℕ → ℚ) (hg : ∀ i, i < n → 0 ≤ g i)
    (i0 : ℕ) (hi0 : i0 < n) (hgi : 0 < g i0) :
    0 < ∑ k in Finset.range m, h / 3 * (g (2 * k) + 4 * g (2 * k + 1) + g (2 * k + 2)) := by
  apply Finset.sum_pos'
  · intro k hk
    have hk' : k < m := Finset.mem_range.mp hk
    have h0 := hg (2 * k) (by omega)
    have h1 := hg (2 * k + 1) (by omega)
    have h2 := hg (2 * k + 2) (by omega)
    exact mul_nonneg (by positivity) (by linarith)
  · refine ⟨min (i0 / 2) (m - 1), Finset.mem_range.mpr (by omega), ?_⟩
    have hcase : i0 = 2 * min (i0 / 2) (m - 1) ∨ i0 = 2 * min (i0 / 2) (m - 1) + 1 ∨
        i0 = 2 * min (i0 / 2) (m - 1) + 2 := by omega
    have hk' : min (i0 / 2) (m - 1) < m := by omega
    have h0 := hg (2 * min (i0 / 2) (m - 1)) (by omega)
    have h1 := hg (2 * min (i0 / 2) (m - 1) + 1) (by omega)
    have h2 := hg (2 * min (i0 / 2) (m - 1) + 2) (by omega)
    apply mul_pos (by positivity)
    rcases hcase with he | he | he
    · have hgg : 0 < g (2 * min (i0 / 2) (m - 1)) := by rw [← he]; exact hgi
      linarith
    · have hgg : 0 < g (2 * min (i0 / 2) (m - 1) + 1) := by rw [← he]; exact hgi
      linarith
    · have hgg : 0 < g (2 * min (i0 / 2) (m - 1) + 2) := by rw [← he]; exact hgi
      linarith

/-- C9 (corrected, amended form): on a uniformly spaced grid with an odd
number of samples (where all the composite-Simpson weights are positive),
the response-weighted first moment `center` of a non-negative response lies
strictly between the minimum and maximum wavelengths of the support of
`resp`, provided the support spans at least two distinct wavelengths.  On
non-uniform grids scipy's Simpson weights can be negative and the claim
fails (see the counterexample). -/
theorem C9_center_in_support (xs rs : List ℚ) (u : LUnit) (name : String) (zp : ℚ)
    (n m : ℕ) (hn : xs.length = n) (hrl : rs.length = n)
    (hm : n = 2 * m + 1) (hm1 : 1 ≤ m)
    (h : ℚ) (hpos : 0 < h)
    (huni : ∀ i, i + 1 < n → xs.getD (i + 1) 0 - xs.getD i 0 = h)
    (hr : ∀ i, i < n → 0 ≤ rs.getD i 0)
    (a b : ℚ)
    (hbnd : ∀ k, k < n → 0 < rs.getD k 0 →
      a ≤ xs.getD k 0 ∧ xs.getD k 0 ≤ b)
    (ia : ℕ) (hia : ia < n) (hra : 0 < rs.getD ia 0) (hxa : xs.getD ia 0 = a)
    (ib : ℕ) (hib : ib < n) (hrb : 0 < rs.getD ib 0) (hxb : xs.getD ib 0 = b)
    (hab : a < b) :
    a < (Filter.build ⟨xs, u⟩ rs name zp).center.val ∧
    (Filter.build ⟨xs, u⟩ rs name zp).center.val < b := by
  have hDval := simps_uniform_odd rs xs n m hrl hn hm h hpos.ne' huni
  have hDpos : 0 < simps rs xs := by
    rw [hDval]
    exact triple_sum_pos n m hm hm1 h hpos (fun i => rs.getD i 0) hr ia hia hra
  have hDne : simps rs xs ≠ 0 := ne_of_gt hDpos
  have hylen : (List.zipWith (fun rv xv => rv / simps rs xs * xv) rs xs).length = n := by
    rw [List.length_zipWith]
    omega
  have hcen0 : (Filter.build ⟨xs, u⟩ rs name zp).center.val =
      simps (List.zipWith (fun rv xv => rv / simps rs xs * xv) rs xs) xs := rfl
  have hCsum := simps_uniform_odd
    (List.zipWith (fun rv xv => rv / simps rs xs * xv) rs xs) xs n m hylen hn hm h
    hpos.ne' huni
  have hgetD : ∀ i, i < n →
      (List.zipWith (fun rv xv => rv / simps rs xs * xv) rs xs).getD i 0 =
        rs.getD i 0 / simps rs xs * xs.getD i 0 :=
    fun i hi => getD_zipWith _ rs xs i (by omega) (by omega)
  have hnum : (Filter.build ⟨xs, u⟩ rs name zp).center.val * simps rs xs =
      ∑ k in Finset.range m, h / 3 *
        (rs.getD (2 * k) 0 * xs.getD (2 * k) 0 +
         4 * (rs.getD (2 * k + 1) 0 * xs.getD (2 * k + 1) 0) +
         rs.getD (2 * k + 2) 0 * xs.getD (2 * k + 2) 0) := by
    rw [hcen0, hCsum, Finset.sum_mul]
    apply Finset.sum_congr rfl
    intro k hk
    have hk' : k < m := Finset.mem_range.mp hk
    rw [hgetD (2 * k) (by omega), hgetD (2 * k + 1) (by omega),
      hgetD (2 * k + 2) (by omega)]
    field_simp
    ring
  have hslotb : ∀ i, i < n → 0 ≤ rs.getD i 0 * (b - xs.getD i 0) := by
    intro i hi
    rcases (hr i hi).eq_or_lt with he | hlt
    · rw [← he, zero_mul]
    · have := (hbnd i hi hlt).2
      exact mul_nonneg (le_of_lt hlt) (by linarith)
  have hslota : ∀ i, i < n → 0 ≤ rs.getD i 0 * (xs.getD i 0 - a) := by
    intro i hi
    rcases (hr i hi).eq_or_lt with he | hlt
    · rw [← he, zero_mul]
    · have := (hbnd i hi hlt).1
      exact mul_nonneg (le_of_lt hlt) (by linarith)
  constructor
  · -- lower bound: a * D < center * D
    have hsum := triple_sum_pos n m hm hm1 h hpos
      (fun i => rs.getD i 0 * (xs.getD i 0 - a)) hslota ib hib
      (by show 0 < rs.getD ib 0 * (xs.getD ib 0 - a)
          rw [hxb]; exact mul_pos hrb (by linarith))
    have hkey : (Filter.build ⟨xs, u⟩ rs name zp).center.val * simps rs xs -
        a * simps rs xs =
        ∑ k in Finset.range m, h / 3 *
          ((fun i => rs.getD i 0 * (xs.getD i 0 - a)) (2 * k) +
           4 * (fun i => rs.getD i 0 * (xs.getD i 0 - a)) (2 * k + 1) +
           (fun i => rs.getD i 0 * (xs.getD i 0 - a)) (2 * k + 2)) := by
      rw [hnum, hDval, Finset.mul_sum, ← Finset.sum_sub_distrib]
      apply Finset.sum_congr rfl
      intro k _
      ring
    have hlt : a * simps rs xs <
        (Filter.build ⟨xs, u⟩ rs name zp).center.val * simps rs xs := by
      linarith [hkey, hsum]
    exact lt_of_mul_lt_mul_right (by linarith) (le_of_lt hDpos)
  · -- upper bound: center * D < b * D
    have hsum := triple_sum_pos n m hm hm1 h hpos
      (fun i => rs.getD i 0 * (b - xs.getD i 0)) hslotb ia hia
      (by show 0 < rs.getD ia 0 * (b - xs.getD ia 0)
          rw [hxa]; exact mul_pos hra (by linarith))
    have hkey : b * simps rs xs -
        (Filter.build ⟨xs, u⟩ rs name zp).center.val * simps rs xs =
        ∑ k in Finset.range m, h / 3 *
          ((fun i => rs.getD i 0 * (b - xs.getD i 0)) (2 * k) +
           4 * (fun i => rs.getD i 0 * (b - xs.getD i 0)) (2 * k + 1) +
           (fun i => rs.getD i 0 * (b - xs.getD i 0)) (2 * k + 2)) := by
      rw [hnum, hDval, Finset.mul_sum, ← Finset.sum_sub_distrib]
      apply Finset.sum_congr rfl
      intro k _
      ring
    have hlt : (Filter.build ⟨xs, u⟩ rs name zp).center.val * simps rs xs <
        b * simps rs xs := by
      linarith [hkey, hsum]
    exact lt_of_mul_lt_mul_right (by linarith) (le_of_lt hDpos)

theorem C9_counterexample :
    (∀ r ∈ fWide.resp, 0 ≤ r) ∧ (1 : ℚ) ∈ fWide.resp ∧ (0 : ℚ) < 1 ∧
    (∀ i, i < 3 → 0 < fWide.resp.getD i 0 → fWide.wave.val.getD i 0 ≤ 1) ∧
    fWide.center.val = 100 / 37 ∧ ¬ (fWide.center.val < 1) := by
  refine ⟨?_, by norm_num [fWide, Filter.build], by norm_num, ?_, ?_, ?_⟩
  · intro r hr
    simp only [fWide, Filter.build, List.mem_cons, List.not_mem_nil, or_false] at hr
    rcases hr with rfl | rfl | rfl <;> norm_num
  · intro i hi hpos
    interval_cases i <;> simp_all [fWide, Filter.build]
  · norm_num [fWide, Filter.build, simps, basicSimpson, simpTerm, Finset.sum_range_succ]
  · norm_num [fWide, Filter.build, simps, basicSimpson, simpTerm, Finset.sum_range_succ]

theorem C9_witness :
    ((([1, 2, 3] : List ℚ).length = 3 ∧ ([0, 1 / 2, 1 / 2] : List ℚ).length = 3 ∧
      (3 : ℕ) = 2 * 1 + 1 ∧ (1 : ℕ) ≤ 1 ∧ (0 : ℚ) < 1) ∧
     (∀ i, i + 1 < 3 →
        ([1, 2, 3] : List ℚ).getD (i + 1) 0 - ([1, 2, 3] : List ℚ).getD i 0 = 1) ∧
     (∀ i, i < 3 → (0 : ℚ) ≤ ([0, 1 / 2, 1 / 2] : List ℚ).getD i 0) ∧
     (∀ k, k < 3 → 0 < ([0, 1 / 2, 1 / 2] : List ℚ).getD k 0 →
        (2 : ℚ) ≤ ([1, 2, 3] : List ℚ).getD k 0 ∧ ([1, 2, 3] : List ℚ).getD k 0 ≤ 3) ∧
     ((1 : ℕ) < 3 ∧ (0 : ℚ) < ([0, 1 / 2, 1 / 2] : List ℚ).getD 1 0 ∧
        ([1, 2, 3] : List ℚ).getD 1 0 = 2) ∧
     ((2 : ℕ) < 3 ∧ (0 : ℚ) < ([0, 1 / 2, 1 / 2] : List ℚ).getD 2 0 ∧
        ([1, 2, 3] : List ℚ).getD 2 0 = 3) ∧ (2 : ℚ) < 3) ∧
    (2 < fTwoSupp.center.val ∧ fTwoSupp.center.val < 3) := by
  have huni : ∀ i, i + 1 < 3 →
      ([1, 2, 3] : List ℚ).getD (i + 1) 0 - ([1, 2, 3] : List ℚ).getD i 0 = 1 := by
    intro i hi
    have hi2 : i < 2 := by omega
    interval_cases i <;> norm_num
  have hr : ∀ i, i < 3 → (0 : ℚ) ≤ ([0, 1 / 2, 1 / 2] : List ℚ).getD i 0 := by
    intro i hi
    interval_cases i <;> norm_num
  have hbnd : ∀ k, k < 3 → 0 < ([0, 1 / 2, 1 / 2] : List ℚ).getD k 0 →
      (2 : ℚ) ≤ ([1, 2, 3] : List ℚ).getD k 0 ∧ ([1, 2, 3] : List ℚ).getD k 0 ≤ 3 := by
    intro k hk hpos
    interval_cases k <;> norm_num at hpos ⊢
  refine ⟨⟨⟨by norm_num, by norm_num, by norm_num, le_refl 1, by norm_num⟩,
    huni, hr, hbnd,
    ⟨by norm_num, by norm_num, by norm_num⟩,
    ⟨by norm_num, by norm_num, by norm_num⟩, by norm_num⟩, ?_⟩
  exact C9_center_in_support [1, 2, 3] [0, 1 / 2, 1 / 2] LUnit.angstrom "" zpAB 3 1
    (by norm_num) (by norm_num) (by norm_num) (le_refl 1) 1 (by norm_num) huni hr 2 3
    hbnd 1 (by norm_num) (by norm_num) (by norm_num) 2 (by norm_num) (by norm_num)
    (by norm_num) (by norm_num)

end Filters
